import Mathlib

/-!
# A shallow embedding of the LabBot alerting core (`LabBot.py`)

This file models, in Lean, the alert state machine, the user-notification
rule evaluator, the quiet-hours predicate and their helper routines from
`LabBot.py`, and proves properties about them.

Modelling conventions:
* Python `dict`s become association lists (`List (κ × α)`), looked up with
  `alookup` (first match), updated with `aset` (first occurrence, else
  append) and removed with `aerase`.  Python dictionaries have unique keys;
  theorems that need this carry explicit `Nodup` hypotheses.
* `datetime` values become rationals measured in seconds; a
  `datetime.timedelta(minutes=m)` is `m * 60` seconds and
  `datetime.timedelta(hours=h)` is `h * 3600` seconds.
* Log readings map a column name to a value that is a finite number,
  NaN, or (after `replace_lowerthan`) a replacement string.  Python float
  comparisons on NaN are `False` and `NaN != x` is `True`; the `Val`
  comparison helpers below reproduce that.  String-typed values never reach
  the numeric comparisons in the modelled flows (they would raise a
  `TypeError` in Python 3); the helpers return `false` for them.
-/

namespace LabBot

/-! ## Association-list helpers (the embedding of Python `dict`) -/

variable {κ : Type} {α : Type} [DecidableEq κ]

/-- First-match lookup, `d[k]` / `k in d`. -/
def alookup (k : κ) : List (κ × α) → Option α
  | [] => none
  | (k', v) :: t => if k' = k then some v else alookup k t

/-- Assignment `d[k] = v`: overwrite the first binding of `k`, else append. -/
def aset (k : κ) (v : α) : List (κ × α) → List (κ × α)
  | [] => [(k, v)]
  | (k', v') :: t => if k' = k then (k, v) :: t else (k', v') :: aset k v t

/-- Removal `d.pop(k, None)`: remove every binding of `k` (Python keys are unique). -/
def aerase (k : κ) (l : List (κ × α)) : List (κ × α) :=
  l.filter (fun p => p.1 ≠ k)

/-! ## Values of a log reading -/

/-- A single cell of a log reading: a finite float, NaN, or (only after
`replace_lowerthan` rewrote the dictionary) a replacement string. -/
inductive Val : Type
  | num (q : ℚ)
  | nan
  | str (s : String)
  deriving DecidableEq, Repr

/-- Python `val < q` (NaN comparisons are `False`). -/
def Val.lt (v : Val) (q : ℚ) : Bool :=
  match v with
  | num x => x < q
  | _ => false

/-- Python `val > q` (NaN comparisons are `False`). -/
def Val.gt (v : Val) (q : ℚ) : Bool :=
  match v with
  | num x => q < x
  | _ => false

/-- Python `val <= q` (NaN comparisons are `False`). -/
def Val.le (v : Val) (q : ℚ) : Bool :=
  match v with
  | num x => x ≤ q
  | _ => false

/-- Python `val == q` for a float `q` (`NaN == q` is `False`). -/
def Val.eqn (v : Val) (q : ℚ) : Bool :=
  match v with
  | num x => x = q
  | _ => false

/-- Python `np.isnan(val)`. -/
def Val.isnan (v : Val) : Bool :=
  match v with
  | nan => true
  | _ => false

/-- A reading: `self.LOG_data`, column name → value. -/
abbrev Reading := List (String × Val)

/-! ## Quiet hours (`quiet_hours`, LabBot.py lines 1435-1445)

`quiet_start`/`quiet_end` are built from today's midnight plus
`QUIET_TIMES_HOURS_START`/`_END` hours, so the datetime comparisons
`now > quiet_start and now < quiet_end` reduce to comparisons of the
time of day (in hours) with the configured bounds. -/

/-- The wall-clock facts `quiet_hours` reads from `datetime.datetime.now()`. -/
structure Now where
  weekday : ℕ
  /-- time of day in hours since midnight -/
  hod : ℚ
  deriving DecidableEq, Repr

/-- Quiet-hours configuration (`QUIET_TIMES_*` in the config). -/
structure QuietCfg where
  hoursStart : ℚ
  hoursEnd : ℚ
  weekdays : List ℕ
  deriving DecidableEq, Repr

/-- The function `quiet_hours` (LabBot.py lines 1435-1445): `now > quiet_start and
now < quiet_end and now.weekday() in cfg.QUIET_TIMES_WEEKDAYS`. -/
def quiet_hours (C : QuietCfg) (now : Now) : Bool :=
  let quietStart := C.hoursStart
  let quietEnd := C.hoursEnd
  if now.hod > quietStart ∧ now.hod < quietEnd ∧ now.weekday ∈ C.weekdays then
    true
  else
    false

/-- The quiet-hours predicate as the specification writes it:
`weekday ∈ configuredWeekdays AND start ≤ hourOfDay < end`. -/
def quietSpecFormula (C : QuietCfg) (now : Now) : Prop :=
  now.weekday ∈ C.weekdays ∧ C.hoursStart ≤ now.hod ∧ now.hod < C.hoursEnd

instance (C : QuietCfg) (now : Now) : Decidable (quietSpecFormula C now) := by
  unfold quietSpecFormula; infer_instance

/-- The example configuration's quiet hours: Mon-Fri, 08:00-18:00. -/
def exampleQuietCfg : QuietCfg :=
  { hoursStart := 8, hoursEnd := 18, weekdays := [0, 1, 2, 3, 4] }

/-- Index into a `limits` pair as in `check_sanity` (lines 1453-1457):
index 0 outside quiet hours, 1 during quiet hours. -/
def limAt (p : ℚ × ℚ) (i : ℕ) : ℚ :=
  if i = 0 then p.1 else p.2

/-! ## The alert table (`self.ERRORS_checks`) -/

/-- Per-rule, per-user bookkeeping entry (`error_add`, lines 1414-1419). -/
structure Entry where
  /-- `'sendNext'`: next eligible send time, seconds. -/
  sendNext : ℚ
  /-- `'timesSent'`: number of warnings actually delivered. -/
  timesSent : ℕ
  /-- `'value'`: the offending value recorded when the record was created. -/
  value : Val
  deriving DecidableEq, Repr

/-- One rule's user map: user id → entry. -/
abbrev UserMap := List (Int × Entry)

/-- The alert table `self.ERRORS_checks`: error name → user map. -/
abbrev Checks := List (String × UserMap)

/-- The function `error_add` (lines 1408-1419): create the rule's record if missing and
add an entry for every registered user not yet tracked, with
`sendNext = now + (min_count - 1) * datetime.timedelta(minutes=cfg.READ_LOG_EVERY_SECONDS)`
(note: the config value named `READ_LOG_EVERY_SECONDS` is passed to
`timedelta` as *minutes*, hence the factor `readLogEverySeconds * 60`
in seconds), `timesSent = 0` and the offending value.  Entries of
already-tracked users are left untouched. -/
def error_add (users : List Int) (readLogEverySeconds : ℚ) (now : ℚ)
    (checks : Checks) (error : String) (value : Val) (minCount : ℤ) : Checks :=
  let m := (alookup error checks).getD []
  let m' := users.foldl (fun m u =>
    if (alookup u m).isSome then m
    else m ++ [(u, { sendNext := now + (minCount - 1) * (readLogEverySeconds * 60),
                     timesSent := 0, value := value })]) m
  aset error m' checks

/-- The function `error_remove` (lines 1431-1433): `self.ERRORS_checks.pop(error, None)`. -/
def error_remove (checks : Checks) (error : String) : Checks :=
  aerase error checks

/-! ## The delivery pass (`status_error` with `send_all=False`, lines 989-1034)

For every registered user (outer loop) and every tracked error (inner
loop), if the user has an entry and `now > sendNext`, the warning is
delivered, `sendNext` is advanced to `now + WARNING_SEND_EVERY_MINUTES`
minutes and `timesSent` is incremented. -/

/-- The entry update applied when a warning is delivered
(lines 1028-1030). -/
def deliver_entry (warnEveryMin now : ℚ) (ent : Entry) : Entry :=
  { ent with sendNext := now + warnEveryMin * 60, timesSent := ent.timesSent + 1 }

/-- One `(error, user)` cell of the delivery loop (lines 1004-1032): skip
if the user has no entry or the rate limiter is not yet due
(`now <= sendNext`); otherwise deliver and update the entry. -/
def deliver_step (warnEveryMin now : ℚ) (u : Int) (e : String) (m : UserMap) :
    List (String × Int) × UserMap :=
  match alookup u m with
  | none => ([], m)
  | some ent =>
    if now ≤ ent.sendNext then ([], m)
    else ([(e, u)], aset u (deliver_entry warnEveryMin now ent) m)

/-- The inner loop of `status_error` for a fixed user: walk every tracked
error, delivering where due.  Returns the `(error, user)` pairs delivered
and the updated table. -/
def deliver_user (warnEveryMin now : ℚ) (u : Int) :
    Checks → List (String × Int) × Checks
  | [] => ([], [])
  | (e, m) :: rest =>
    let step := deliver_step warnEveryMin now u e m
    let next := deliver_user warnEveryMin now u rest
    (step.1 ++ next.1, (e, step.2) :: next.2)

/-- The full delivery pass: the outer loop over `cfg.LIST_OF_USERS`. -/
def status_error_send (warnEveryMin now : ℚ) :
    List Int → Checks → List (String × Int) × Checks
  | [], checks => ([], checks)
  | u :: us, checks =>
    let first := deliver_user warnEveryMin now u checks
    let next := status_error_send warnEveryMin now us first.2
    (first.1 ++ next.1, next.2)

/-! ## Clearing (`status_error_off`, lines 1043-1061) -/

/-- The function `status_error_off`: for each cleared error (zipped with its
only-because-of-quiet-hours flag), send a de-warning `(error, user, flag)`
to every registered user whose `timesSent > 0`, then `error_remove` the
whole record. -/
def status_error_off (users : List Int) :
    List (String × Bool) → Checks → List (String × Int × Bool) × Checks
  | [], checks => ([], checks)
  | (e, flag) :: rest, checks =>
    let m := (alookup e checks).getD []
    let msgs := users.filterMap (fun u =>
      match alookup u m with
      | some ent => if 0 < ent.timesSent then some (e, u, flag) else none
      | none => none)
    let next := status_error_off users rest (error_remove checks e)
    (msgs ++ next.1, next.2)

/-! ## The off-scan of `check_sanity` (lines 1459-1509) -/

/-- A `MaxLimit` rule (`cfg.ERROR_LIMITS_MAX` value): column, `[normal,
quiet]` limit pair, optional `min_count` (0 when the key is absent). -/
structure LimitRule where
  column : String
  limits : ℚ × ℚ
  minCount : ℤ
  deriving DecidableEq, Repr

/-- A `LowerThanSentinel` rule (`cfg.ERROR_LOWERTHAN_VALUES` value). -/
structure SentinelRule where
  column : String
  value : ℚ
  deriving DecidableEq, Repr

/-- The static rule set read by `check_sanity`. -/
structure RuleCfg where
  /-- `cfg.ERROR_COLUMNS_MUSTHAVE`: error name → column. -/
  mustHave : List (String × String)
  /-- `cfg.ERROR_LIMITS_MAX`: error name → limit rule. -/
  limitsMax : List (String × LimitRule)
  /-- `cfg.ERROR_LOWERTHAN`: column → floor value. -/
  lowerThan : List (String × ℚ)
  /-- `cfg.ERROR_LOWERTHAN_VALUES`: error name → sentinel rule. -/
  lowerThanValues : List (String × SentinelRule)
  /-- `cfg.ERROR_LOWERTHAN_DEFAULT`. -/
  lowerThanDefault : String
  /-- `cfg.ERROR_UNKNOWN_VALUES`. -/
  unknownValues : String
  /-- `cfg.WARNING_NOLOG_MINUTES`. -/
  warningNologMinutes : ℚ
  deriving DecidableEq, Repr

/-- The outcome of one iteration of the "warnings that are not active
anymore" loop. -/
inductive OffResult : Type
  | keep
  | off (onlyQuiet : Bool)
  | unknown
  deriving DecidableEq, Repr

/-- One iteration of the off-scan (the `elif` chain of lines 1463-1509):
decides whether a currently tracked error is now off (and whether it
cleared only because quiet hours raised the limit), still on, or unknown
(to be purged). -/
def error_off_decision (C : RuleCfg) (logData : Reading)
    (logLastChecked : Option ℚ) (now : ℚ) (iQuiet : ℕ) (e : String) : OffResult :=
  if e = "ERROR_log_read" then
    match logLastChecked with
    | some t =>
        if now - t < C.warningNologMinutes * 60 then .off false else .keep
    | none => .keep
  else match alookup e C.mustHave with
  | some c => if (alookup c logData).isSome then .off false else .keep
  | none => match alookup e C.limitsMax with
    | some r =>
        if logData ≠ [] then
          match alookup r.column logData with
          | some v =>
              if v.lt (limAt r.limits iQuiet) then
                .off (!(v.lt (limAt r.limits 0)))
              else .keep
          | none => .keep
        else .keep
    | none => match alookup e C.lowerThanValues with
      | some sr =>
          match alookup sr.column logData with
          | some v =>
              match alookup sr.column C.lowerThan with
              | some floor => if v.gt floor then .off false else .keep
              | none => if !(v.eqn sr.value) then .off false else .keep
          | none => .keep
      | none =>
        if e = C.lowerThanDefault then
          if C.lowerThan.all (fun p =>
              match alookup p.1 logData with
              | some v => !(v.le p.2)
              | none => true) then .off false else .keep
        else if e = C.unknownValues then
          if logData.all (fun p => !(p.2.isnan)) then .off false else .keep
        else .unknown

/-- The full off-scan over the tracked errors: returns `errors_off` zipped
with `errors_off_only_quiet`, and `errors_unknown`. -/
def check_errors_off (C : RuleCfg) (logData : Reading)
    (logLastChecked : Option ℚ) (now : ℚ) (iQuiet : ℕ) :
    Checks → List (String × Bool) × List String
  | [] => ([], [])
  | (e, _) :: rest =>
    let next := check_errors_off C logData logLastChecked now iQuiet rest
    match error_off_decision C logData logLastChecked now iQuiet e with
    | .keep => next
    | .off b => ((e, b) :: next.1, next.2)
    | .unknown => (next.1, e :: next.2)

/-! ## The lower-than firing scan of `check_sanity` (lines 1534-1550) -/

/-- The "check for new warnings" lower-than scan: for every column with a
configured floor whose reading is non-positive, fire every sentinel rule
matching `(column, value)` exactly; columns matching no sentinel are
collected for the single aggregated default error, which `check_sanity`
raises (lines 1547-1550) iff that list is nonempty. Returns
`(sentinel errors fired with the offending value, default columns)`. -/
def lowerthan_scan (rules : List (String × SentinelRule)) (logData : Reading) :
    List (String × ℚ) → List (String × Val) × List String
  | [] => ([], [])
  | (c, _) :: rest =>
    let here : List (String × Val) × List String :=
      match alookup c logData with
      | some v =>
          if v.le 0 then
            let fired := rules.filterMap (fun p =>
              if p.2.column = c ∧ v.eqn p.2.value then some (p.1, v) else none)
            if fired.isEmpty then ([], [c]) else (fired, [])
          else ([], [])
      | none => ([], [])
    let next := lowerthan_scan rules logData rest
    (here.1 ++ next.1, here.2 ++ next.2)

/-- Whether the aggregated default lower-than error is raised
(line 1547: `if negative_error_default:`). -/
def lowerthan_default_fires (rules : List (String × SentinelRule))
    (logData : Reading) (ltCols : List (String × ℚ)) : Bool :=
  !(lowerthan_scan rules logData ltCols).2.isEmpty

/-! ## `silence_errors` (lines 537-572) -/

/-- The state mutation of `silence_errors`: for every tracked error in
which the calling user has an entry, set that entry's `sendNext` to
`now + hours` hours, or, when `hours == 0`, re-enable by setting it to
`now - WARNING_SEND_EVERY_MINUTES` minutes.  Returns the updated table
together with `list_disabled`, the errors reported as disabled. -/
def silence_errors (warnEveryMin : ℚ) (chatId : Int) (hours : ℚ) (now : ℚ) :
    Checks → Checks × List String
  | [] => ([], [])
  | (e, m) :: rest =>
    let here : UserMap × List String :=
      match alookup chatId m with
      | some ent =>
          if hours = 0 then
            (aset chatId { ent with sendNext := now - warnEveryMin * 60 } m, [])
          else
            (aset chatId { ent with sendNext := now + hours * 3600 } m, [e])
      | none => (m, [])
    let next := silence_errors warnEveryMin chatId hours now rest
    ((e, here.1) :: next.1, here.2 ++ next.2)

/-! ## User notification rules (`check_user_notifications`, lines 1565-1587) -/

/-- A user-owned notification rule.  A freshly added rule has no
`'active'` key and is treated as active, modelled by `active = true`. -/
structure Notif where
  column : String
  comparison : ℤ
  limit : ℚ
  active : Bool
  deriving DecidableEq, Repr

/-- The trigger test for one rule (lines 1577-1580): the column must be in
the reading, its value must be numeric (`type(...) in [int, float]`), and
`sign * value > sign * limit` must hold, where `sign` is the rule's
comparison (±1). -/
def notif_triggers (logData : Reading) (n : Notif) : Bool :=
  match alookup n.column logData with
  | some (Val.num v) => (n.comparison : ℚ) * v > (n.comparison : ℚ) * n.limit
  | _ => false

/-- The list `n_inactivate` (lines 1572-1582): the indices of the user's active,
triggering rules; each is notified once. -/
def notif_fired (logData : Reading) (notifs : List Notif) : List ℕ :=
  notifs.enum.filterMap (fun p =>
    if p.2.active ∧ notif_triggers logData p.2 then some p.1 else none)

/-- The function `check_user_notifications` for one user: collect the indices of active,
triggering rules (`n_inactivate`), notify each, then set `active = False`
at exactly those indices (the rules are never deleted).  With an empty
reading the function returns early, which coincides with no rule
triggering.  Returns the updated rule list and the notified indices. -/
def check_user_notifications (logData : Reading) (notifs : List Notif) :
    List Notif × List ℕ :=
  (notifs.enum.map (fun p =>
    if p.1 ∈ notif_fired logData notifs then { p.2 with active := false } else p.2),
   notif_fired logData notifs)

/-! ## Adding a user notification rule (`user_notifications_manage`,
lines 703-759) -/

/-- Python `str.lower()`: lowercase each character. -/
def lower_string (s : String) : String :=
  String.mk (s.data.map Char.toLower)

/-- The loop of Python `str.replace(old, new)`: replace all
non-overlapping occurrences left to right.  The fuel argument (the input
length) only bounds the recursion; `old` is nonempty in the modelled
calls, so the fuel never runs out. -/
def str_replace_go (pat rep : List Char) : ℕ → List Char → List Char
  | 0, cs => cs
  | _, [] => []
  | fuel + 1, c :: rest =>
    if pat.isPrefixOf (c :: rest) then
      rep ++ str_replace_go pat rep fuel (List.drop pat.length (c :: rest))
    else
      c :: str_replace_go pat rep fuel rest

/-- Python `str.replace(old, new)`. -/
def str_replace (s pat rep : String) : String :=
  String.mk (str_replace_go pat.data rep.data s.data.length s.data)

/-- The function `get_column_name` (lines 380-387): case-insensitive alias lookup in
`cfg.COLUMNS_LABELS`, first match in declaration order, `False` (here
`none`) when nothing matches. -/
def get_column_name : List (String × List String) → String → Option String
  | [], _ => none
  | (key, vals) :: rest, query =>
    if vals.any (fun v => lower_string v = lower_string query) then some key
    else get_column_name rest query

/-- Comparator recognition (lines 727-731): `>`-aliases give 1,
`<`-aliases give -1, anything else stays 0 (a parse failure). -/
def comparison_of (s : String) : ℤ :=
  if s ∈ [">", "g", "gt", "gr"] then 1
  else if s ∈ ["<", "s", "lt", "l", "k", "kl"] then -1
  else 0

/-- Numeric value of a digit string. -/
def digitsVal (ds : List Char) : ℕ :=
  ds.foldl (fun n c => 10 * n + (c.toNat - '0'.toNat)) 0

/-- Value of the fractional digit string after the decimal point. -/
def fracVal (ds : List Char) : ℚ :=
  (digitsVal ds : ℚ) / (10 : ℚ) ^ ds.length

/-- Mantissa of a Python float literal: digits with an optional decimal
point (at least one digit on one side). -/
def parse_unsigned (cs : List Char) : Option (ℚ × List Char) :=
  let ipart := cs.takeWhile Char.isDigit
  let rest := cs.dropWhile Char.isDigit
  match rest with
  | '.' :: rest2 =>
    let fpart := rest2.takeWhile Char.isDigit
    let rest3 := rest2.dropWhile Char.isDigit
    if ipart.isEmpty ∧ fpart.isEmpty then none
    else some ((digitsVal ipart : ℚ) + fracVal fpart, rest3)
  | _ => if ipart.isEmpty then none else some ((digitsVal ipart : ℚ), rest)

/-- Optional exponent part of a Python float literal. -/
def parse_exponent (cs : List Char) : Option (ℤ × List Char) :=
  match cs with
  | c :: rest =>
    if c = 'e' ∨ c = 'E' then
      match rest with
      | '-' :: rest2 =>
        let ds := rest2.takeWhile Char.isDigit
        if ds.isEmpty then none
        else some (-(digitsVal ds : ℤ), rest2.dropWhile Char.isDigit)
      | '+' :: rest2 =>
        let ds := rest2.takeWhile Char.isDigit
        if ds.isEmpty then none
        else some ((digitsVal ds : ℤ), rest2.dropWhile Char.isDigit)
      | _ =>
        let ds := rest.takeWhile Char.isDigit
        if ds.isEmpty then none
        else some ((digitsVal ds : ℤ), rest.dropWhile Char.isDigit)
    else some (0, c :: rest)
  | [] => some (0, [])

/-- Python `float` ignores surrounding whitespace. -/
def trim_chars (cs : List Char) : List Char :=
  ((cs.dropWhile Char.isWhitespace).reverse.dropWhile Char.isWhitespace).reverse

/-- A model of Python `float(s)` on decimal/scientific literals: optional
sign, mantissa, optional exponent.  (`inf`/`nan` literals and underscore
digit separators are not modelled; notification limits never use them.) -/
def py_float (s : String) : Option ℚ :=
  let cs := trim_chars s.data
  let signed : ℚ × List Char :=
    match cs with
    | '-' :: rest => (-1, rest)
    | '+' :: rest => (1, rest)
    | _ => (1, cs)
  match parse_unsigned signed.2 with
  | none => none
  | some (m, rest) =>
    match parse_exponent rest with
    | none => none
    | some (ex, rest2) =>
      if rest2.isEmpty then some (signed.1 * m * (10 : ℚ) ^ ex) else none

/-- Unit stripping before the float parse (line 741):
`query_items[2].lower().replace('k', '').replace('mbar', '')`. -/
def strip_units (s : String) : String :=
  str_replace (str_replace (lower_string s) "k" "") "mbar" ""

/-- The outcome of the add path; each error constructor stands for the
distinct user-facing message sent in that branch. -/
inductive AddResult : Type
  /-- "Notification set up: ..." -/
  | ok
  /-- "Notification should contain three elements" (line 711). -/
  | errFormat
  /-- "I do not recognize the first element" (line 721). -/
  | errColumn
  /-- "The second element of the notification should be either < or >"
  (line 735). -/
  | errComparator
  /-- "The third element of the notification should be a number"
  (line 745). -/
  | errNumber
  deriving DecidableEq, Repr

/-- The add path of `user_notifications_manage` (lines 710-759), starting
from the whitespace-split `query_items` (the raw text was normalised and
split upstream).  Returns the user's notification list (extended only on
success, appended at the end with no `'active'` key, i.e. active) and the
outcome. -/
def user_notifications_add (labels : List (String × List String))
    (notifs : List Notif) (items : List String) : List Notif × AddResult :=
  match items with
  | [qcol, qcmp, qlim] =>
    match get_column_name labels qcol with
    | none => (notifs, .errColumn)
    | some column =>
      let comparison := comparison_of qcmp
      if comparison = 0 then (notifs, .errComparator)
      else
        match py_float (strip_units qlim) with
        | none => (notifs, .errNumber)
        | some limit =>
          (notifs ++ [{ column := column, comparison := comparison,
                        limit := limit, active := true }], .ok)
  | _ => (notifs, .errFormat)

/-! ## `replace_lowerthan` (lines 389-396) and the status render -/

/-- The per-value rule of `replace_lowerthan`: values listed in
`cfg.VALUES_REPLACE` become their replacement string, NaN becomes the
`'nan'` replacement when configured, everything else (including strings,
which match no numeric key) is unchanged. -/
def replace_val (tbl : List (ℚ × String)) (nanRepl : Option String) (v : Val) : Val :=
  match v with
  | .num q =>
    match alookup q tbl with
    | some s => .str s
    | none => .num q
  | .nan =>
    match nanRepl with
    | some s => .str s
    | none => .nan
  | .str s => .str s

/-- The function `replace_lowerthan` (lines 389-396): iterates over the dictionary it
is passed and assigns replacements into it (`log_data[c] = ...`),
returning that same dictionary. -/
def replace_lowerthan (tbl : List (ℚ × String)) (nanRepl : Option String) :
    Reading → Reading
  | [] => []
  | (c, v) :: rest => (c, replace_val tbl nanRepl v) :: replace_lowerthan tbl nanRepl rest

/-- The held `self.LOG_data` after `status_sensors` renders a status
report (line 917): `replace_lowerthan(self.LOG_data)` receives the held
dictionary itself and assigns into it, so afterwards the held reading is
the function's result. -/
def log_data_after_status (tbl : List (ℚ × String)) (nanRepl : Option String)
    (logData : Reading) : Reading :=
  replace_lowerthan tbl nanRepl logData

/-- The numeric replacement table of the example configuration
(`VALUES_REPLACE`). -/
def exampleValuesReplace : List (ℚ × String) :=
  [(-1000, "overrange"), (-2000, "error"), (-3000, "off"),
   (-4000, "not found"), (-5000, "id error")]

/-! ## Lemmas about the association-list helpers -/

@[simp] theorem alookup_nil (k : κ) : alookup k ([] : List (κ × α)) = none := rfl

@[simp] theorem alookup_cons (k k' : κ) (v : α) (t : List (κ × α)) :
    alookup k ((k', v) :: t) = if k' = k then some v else alookup k t := rfl

@[simp] theorem aset_nil (k : κ) (v : α) : aset k v ([] : List (κ × α)) = [(k, v)] := rfl

@[simp] theorem aset_cons (k k' : κ) (v v' : α) (t : List (κ × α)) :
    aset k v ((k', v') :: t) =
      if k' = k then (k, v) :: t else (k', v') :: aset k v t := rfl

theorem alookup_aset_self (k : κ) (v : α) (l : List (κ × α)) :
    alookup k (aset k v l) = some v := by
  induction l with
  | nil => simp
  | cons p t ih =>
    obtain ⟨k', v'⟩ := p
    by_cases h : k' = k <;> simp [h, ih]

theorem alookup_aset_ne (k k' : κ) (v : α) (l : List (κ × α)) (h : k ≠ k') :
    alookup k' (aset k v l) = alookup k' l := by
  induction l with
  | nil => simp [h]
  | cons p t ih =>
    obtain ⟨k₀, v₀⟩ := p
    by_cases h₀ : k₀ = k
    · subst h₀; simp [h]
    · simp only [aset_cons, if_neg h₀, alookup_cons]
      by_cases h₁ : k₀ = k' <;> simp [h₁, ih]

theorem alookup_aerase_self (k : κ) (l : List (κ × α)) :
    alookup k (aerase k l) = none := by
  induction l with
  | nil => rfl
  | cons p t ih =>
    obtain ⟨k', v'⟩ := p
    by_cases h : k' = k
    · subst h; simpa [aerase] using ih
    · simpa [aerase, h] using ih

theorem alookup_aerase_ne (k k' : κ) (l : List (κ × α)) (h : k ≠ k') :
    alookup k' (aerase k l) = alookup k' l := by
  induction l with
  | nil => rfl
  | cons p t ih =>
    obtain ⟨k₀, v₀⟩ := p
    by_cases h₀ : k₀ = k
    · subst h₀; simpa [aerase, h] using ih
    · by_cases h₁ : k₀ = k' <;> simp_all [aerase]

theorem alookup_append_left (k : κ) (v : α) (l l' : List (κ × α))
    (h : alookup k l = some v) : alookup k (l ++ l') = some v := by
  induction l with
  | nil => simp at h
  | cons p t ih =>
    obtain ⟨k₀, v₀⟩ := p
    by_cases h₀ : k₀ = k
    · simp_all
    · simp_all

theorem aset_keys (k : κ) (v : α) (l : List (κ × α)) (h : alookup k l ≠ none) :
    (aset k v l).map Prod.fst = l.map Prod.fst := by
  induction l with
  | nil => simp at h
  | cons p t ih =>
    obtain ⟨k', v'⟩ := p
    by_cases h₀ : k' = k
    · simp [h₀]
    · simp only [alookup_cons, if_neg h₀] at h
      simp [h₀, ih h]

theorem map_eq_self_iff {β : Type} (g : β → β) (l : List β) :
    l.map g = l ↔ ∀ x ∈ l, g x = x := by
  induction l with
  | nil => simp
  | cons x t ih => simp [ih, List.forall_mem_cons]

/-! ## `error_add` lemmas -/

/-- The per-user body of `error_add`'s loop. -/
theorem error_add_foldl_preserves (users : List Int) (readLog now : ℚ)
    (value : Val) (minCount : ℤ) (u : Int) (ent : Entry) :
    ∀ m : UserMap, alookup u m = some ent →
      alookup u (users.foldl (fun m u' =>
        if (alookup u' m).isSome then m
        else m ++ [(u', { sendNext := now + (minCount - 1) * (readLog * 60),
                          timesSent := 0, value := value })]) m) = some ent := by
  induction users with
  | nil => intro m hm; simpa using hm
  | cons u' us ih =>
    intro m hm
    simp only [List.foldl_cons]
    by_cases h : (alookup u' m).isSome
    · simpa [h] using ih _ hm
    · simp only [h, if_false, Bool.false_eq_true]
      exact ih _ (alookup_append_left _ _ _ _ hm)

/-! ## Claim theorems -/

/-- C10: `error_add` is idempotent for already-tracked users — an existing
entry (its `sendNext`, `timesSent` and stored value) survives any further
`error_add` for that error unchanged, whatever value and `min_count` are
passed, so a persisting condition never resets the rate limiter or the
delivery count. -/
theorem c10_error_add_idempotent (users : List Int) (readLog now : ℚ)
    (checks : Checks) (error : String) (value : Val) (minCount : ℤ)
    (u : Int) (m : UserMap) (ent : Entry)
    (hm : alookup error checks = some m) (hu : alookup u m = some ent) :
    ∃ m', alookup error (error_add users readLog now checks error value minCount)
        = some m' ∧ alookup u m' = some ent := by
  unfold error_add
  refine ⟨_, alookup_aset_self _ _ _, ?_⟩
  rw [hm, Option.getD_some]
  exact error_add_foldl_preserves users readLog now value minCount u ent m hu

/-- Witness for C10 at a concrete state: user 7 already tracked for error
`"E"` with `sendNext = 5`, `timesSent = 2`; a second `error_add` with a
different value and `min_count` leaves the entry unchanged. -/
theorem c10_error_add_idempotent_witness :
    ∃ m', alookup "E" (error_add [7] 30 100 [("E", [(7, ⟨5, 2, Val.num 1⟩)])]
        "E" (Val.num 9) 4) = some m' ∧
      alookup (7 : Int) m' = some ⟨5, 2, Val.num 1⟩ :=
  c10_error_add_idempotent [7] 30 100 [("E", [(7, ⟨5, 2, Val.num 1⟩)])] "E"
    (Val.num 9) 4 7 [(7, ⟨5, 2, Val.num 1⟩)] ⟨5, 2, Val.num 1⟩ (by decide) (by decide)

/-- C1: `error_add` sets the first send time of a newly created entry to
`now + (min_count - 1) * timedelta(minutes=READ_LOG_EVERY_SECONDS)`.  The
poll interval is `READ_LOG_EVERY_SECONDS` *seconds* (the value is passed
to `threading.Timer` in seconds at line 1372), so with the example
configuration's 30-second poll interval and `min_count = 3` the first
warning is pushed out 3600 seconds — 60 poll intervals — instead of the
two poll intervals (60 seconds) the claim states. -/
theorem c1_min_count_delay_units :
    error_add [7] 30 0 [] "ERROR_pressure_afm" (Val.num 5) 3
      = [("ERROR_pressure_afm",
          [(7, { sendNext := 3600, timesSent := 0, value := Val.num 5 })])]
    ∧ (3600 : ℚ) ≠ (3 - 1) * 30 := by
  constructor
  · simp only [error_add, List.foldl_cons, List.foldl_nil, alookup_nil,
      Option.getD_none, Option.isSome_none, Bool.false_eq_true, if_false,
      List.nil_append, aset_nil]
    norm_num
  · norm_num

/-- C4 counterexample: with the example configuration (quiet hours
08:00-18:00 Mon-Fri), at exactly 08:00 on a Monday `quiet_hours` returns
`false`, although the claimed formula
`weekday ∈ weekdays ∧ start ≤ hourOfDay < end` holds there. -/
theorem c4_counterexample :
    quiet_hours exampleQuietCfg { weekday := 0, hod := 8 } = false ∧
      quietSpecFormula exampleQuietCfg { weekday := 0, hod := 8 } := by
  constructor
  · decide
  · exact ⟨by decide, by decide, by decide⟩

/-- C4 (amended): `quiet_hours` is a pure function of the current time
returning true exactly when the weekday is configured and the time of day
lies *strictly* between the start and end hours; in particular at a time
whose hour of day equals the configured start exactly it returns `false`,
not `true`. -/
theorem c4_quiet_hours_characterisation (C : QuietCfg) (now : Now) :
    quiet_hours C now = true ↔
      (now.weekday ∈ C.weekdays ∧ C.hoursStart < now.hod ∧ now.hod < C.hoursEnd) := by
  unfold quiet_hours
  by_cases h : now.hod > C.hoursStart ∧ now.hod < C.hoursEnd ∧ now.weekday ∈ C.weekdays
  · simp only [if_pos h]
    tauto
  · simp only [if_neg h]
    constructor
    · intro hfalse; cases hfalse
    · intro hc; exact absurd ⟨hc.2.1, hc.2.2, hc.1⟩ h

/-- C9 counterexample: rendering a status report mutates the held
reading — with the example `VALUES_REPLACE` table, a reading holding the
sentinel value −3000 is changed in place to the string `"off"`. -/
theorem c9_counterexample :
    log_data_after_status exampleValuesReplace (some "unknown")
        [("PAFM[mbar]", Val.num (-3000))]
      ≠ [("PAFM[mbar]", Val.num (-3000))] := by
  decide

/-- C9 (amended): the Reading is *not* immutable under status rendering:
`status_sensors` passes the held `LOG_data` dictionary to
`replace_lowerthan`, which assigns into it, so after a status render the
held reading is the pointwise image replacing sentinel-coded values (and
NaN, when a `'nan'` replacement is configured) by their replacement
strings; all other entries are unchanged, and the reading is unchanged
exactly when it contains no replaceable value. -/
theorem c9_status_render_mutates (tbl : List (ℚ × String))
    (nanRepl : Option String) (logData : Reading) :
    log_data_after_status tbl nanRepl logData
        = logData.map (fun p => (p.1, replace_val tbl nanRepl p.2))
    ∧ (log_data_after_status tbl nanRepl logData = logData ↔
        ∀ p ∈ logData, replace_val tbl nanRepl p.2 = p.2) := by
  have hmap : ∀ ld : Reading, log_data_after_status tbl nanRepl ld
      = ld.map (fun p => (p.1, replace_val tbl nanRepl p.2)) := by
    intro ld
    induction ld with
    | nil => rfl
    | cons p t ih =>
      obtain ⟨c, v⟩ := p
      simpa [log_data_after_status, replace_lowerthan] using ih
  refine ⟨hmap logData, ?_⟩
  rw [hmap logData, map_eq_self_iff]
  constructor
  · intro h p hp
    have hp' := h p hp
    rw [Prod.ext_iff] at hp'
    exact hp'.2
  · intro h p hp
    rw [Prod.ext_iff]
    exact ⟨rfl, h p hp⟩

/-! ## `silence_errors` lemmas -/

theorem silence_errors_keys (w : ℚ) (user : Int) (hours now : ℚ)
    (checks : Checks) :
    (silence_errors w user hours now checks).1.map Prod.fst
      = checks.map Prod.fst := by
  induction checks with
  | nil => rfl
  | cons p rest ih =>
    obtain ⟨e, m⟩ := p
    simpa [silence_errors] using ih

theorem silence_errors_lookup (w : ℚ) (user : Int) (hours now : ℚ) :
    ∀ (checks : Checks) (e : String) (m : UserMap),
      alookup e checks = some m →
      ∃ m', alookup e (silence_errors w user hours now checks).1 = some m'
        ∧ m'.map Prod.fst = m.map Prod.fst
        ∧ (∀ u, u ≠ user → alookup u m' = alookup u m)
        ∧ (∀ ent, alookup user m = some ent →
            alookup user m' = some { sendNext := if hours = 0 then now - w * 60
                                                 else now + hours * 3600,
                                     timesSent := ent.timesSent,
                                     value := ent.value })
        ∧ (alookup user m = none → m' = m) := by
  intro checks
  induction checks with
  | nil => intro e m hm; simp at hm
  | cons p rest ih =>
    intro e m hm
    obtain ⟨e₀, m₀⟩ := p
    by_cases he : e₀ = e
    · subst he
      rw [alookup_cons, if_pos rfl] at hm
      obtain rfl : m = m₀ := by simpa using hm.symm
      cases hu : alookup user m with
      | none =>
        refine ⟨m, ?_, rfl, fun u _ => rfl, ?_, fun _ => rfl⟩
        · simp [silence_errors, hu]
        · intro ent hent; cases hent
      | some ent =>
        have hne : alookup user m ≠ none := by simp [hu]
        by_cases h0 : hours = 0
        · refine ⟨aset user { sendNext := now - w * 60,
                              timesSent := ent.timesSent,
                              value := ent.value } m,
            ?_, aset_keys _ _ _ hne, ?_, ?_, ?_⟩
          · simp [silence_errors, hu, h0]
          · intro u hu'; exact alookup_aset_ne user u _ _ (Ne.symm hu')
          · intro ent' hent'
            obtain rfl : ent = ent' := by simpa using hent'
            rw [alookup_aset_self]
            simp [h0]
          · intro hnone; cases hnone
        · refine ⟨aset user { sendNext := now + hours * 3600,
                              timesSent := ent.timesSent,
                              value := ent.value } m,
            ?_, aset_keys _ _ _ hne, ?_, ?_, ?_⟩
          · simp [silence_errors, hu, h0]
          · intro u hu'; exact alookup_aset_ne user u _ _ (Ne.symm hu')
          · intro ent' hent'
            obtain rfl : ent = ent' := by simpa using hent'
            rw [alookup_aset_self]
            simp [h0]
          · intro hnone; cases hnone
    · simp only [alookup_cons, if_neg he] at hm
      obtain ⟨m', h₁, h₂⟩ := ih e m hm
      exact ⟨m', by simpa [silence_errors, he] using h₁, h₂⟩

/-! ## Claim theorems (continued) -/

/-- C6: the silence command touches exactly the calling user's
`sendNext` fields.  For every tracked error, the user's entry (when
present) gets `sendNext = now + hours` hours when `hours ≠ 0` and
`sendNext = now - WARNING_SEND_EVERY_MINUTES` minutes (immediately
eligible again) when `hours = 0`; its `timesSent` and stored value are
unchanged; no alert record is created or deleted (the key lists of the
table and of every user map are unchanged) and entries of other users are
untouched. -/
theorem c6_silence_frame (warnEveryMin : ℚ) (user : Int) (hours now : ℚ)
    (checks : Checks) (e : String) (m : UserMap)
    (hm : alookup e checks = some m) :
    (silence_errors warnEveryMin user hours now checks).1.map Prod.fst
        = checks.map Prod.fst
    ∧ ∃ m', alookup e (silence_errors warnEveryMin user hours now checks).1 = some m'
        ∧ m'.map Prod.fst = m.map Prod.fst
        ∧ (∀ u, u ≠ user → alookup u m' = alookup u m)
        ∧ (∀ ent, alookup user m = some ent →
            alookup user m' = some { sendNext := if hours = 0
                                                 then now - warnEveryMin * 60
                                                 else now + hours * 3600,
                                     timesSent := ent.timesSent,
                                     value := ent.value })
        ∧ (alookup user m = none → m' = m) :=
  ⟨silence_errors_keys warnEveryMin user hours now checks,
   silence_errors_lookup warnEveryMin user hours now checks e m hm⟩

/-- Witness for C6: user 7 silences for 2 hours while error `"E"` is
active; their entry moves to `now + 7200` seconds, user 8's entry and the
record structure are untouched. -/
theorem c6_silence_frame_witness :
    (silence_errors 60 7 2 0 [("E", [(7, ⟨0, 1, Val.num 3⟩), (8, ⟨5, 0, Val.num 4⟩)])]).1.map
        Prod.fst
      = [("E", [((7 : Int), (⟨0, 1, Val.num 3⟩ : Entry)), (8, ⟨5, 0, Val.num 4⟩)])].map Prod.fst
    ∧ ∃ m', alookup "E"
          (silence_errors 60 7 2 0
            [("E", [(7, ⟨0, 1, Val.num 3⟩), (8, ⟨5, 0, Val.num 4⟩)])]).1 = some m'
        ∧ m'.map Prod.fst = [((7 : Int), (⟨0, 1, Val.num 3⟩ : Entry)), (8, ⟨5, 0, Val.num 4⟩)].map Prod.fst
        ∧ (∀ u, u ≠ (7 : Int) → alookup u m'
            = alookup u [((7 : Int), (⟨0, 1, Val.num 3⟩ : Entry)), (8, ⟨5, 0, Val.num 4⟩)])
        ∧ (∀ ent, alookup (7 : Int) [((7 : Int), (⟨0, 1, Val.num 3⟩ : Entry)), (8, ⟨5, 0, Val.num 4⟩)]
              = some ent →
            alookup (7 : Int) m' = some { sendNext := if (2 : ℚ) = 0 then 0 - 60 * 60
                                                      else 0 + 2 * 3600,
                                          timesSent := ent.timesSent,
                                          value := ent.value })
        ∧ (alookup (7 : Int) [((7 : Int), (⟨0, 1, Val.num 3⟩ : Entry)), (8, ⟨5, 0, Val.num 4⟩)] = none →
            m' = [((7 : Int), (⟨0, 1, Val.num 3⟩ : Entry)), (8, ⟨5, 0, Val.num 4⟩)]) :=
  c6_silence_frame 60 7 2 0 [("E", [(7, ⟨0, 1, Val.num 3⟩), (8, ⟨5, 0, Val.num 4⟩)])]
    "E" [(7, ⟨0, 1, Val.num 3⟩), (8, ⟨5, 0, Val.num 4⟩)] (by decide)

/-! ## User-notification evaluator lemmas -/

theorem notif_triggers_iff (logData : Reading) (n : Notif) :
    notif_triggers logData n = true ↔
      ∃ v : ℚ, alookup n.column logData = some (Val.num v) ∧
        (n.comparison : ℚ) * n.limit < (n.comparison : ℚ) * v := by
  unfold notif_triggers
  cases h : alookup n.column logData with
  | none => simp
  | some v =>
    cases v with
    | num q => simp [gt_iff_lt]
    | nan => simp
    | str s => simp

theorem notif_fired_mem (logData : Reading) (notifs : List Notif) (i : ℕ) :
    i ∈ notif_fired logData notifs ↔
      ∃ n, notifs[i]? = some n ∧ n.active = true ∧
        notif_triggers logData n = true := by
  unfold notif_fired
  rw [List.mem_filterMap]
  constructor
  · rintro ⟨⟨j, n⟩, hmem, hf⟩
    by_cases hc : n.active = true ∧ notif_triggers logData n = true
    · rw [if_pos hc] at hf
      obtain rfl : j = i := by simpa using hf
      exact ⟨n, List.mk_mem_enum_iff_getElem?.1 hmem, hc⟩
    · rw [if_neg hc] at hf
      simp at hf
  · rintro ⟨n, hget, ha, ht⟩
    exact ⟨(i, n), List.mk_mem_enum_iff_getElem?.2 hget, by simp [ha, ht]⟩

theorem check_user_notifications_getElem (logData : Reading)
    (notifs : List Notif) (i : ℕ) :
    (check_user_notifications logData notifs).1[i]?
      = (notifs[i]?).map (fun n =>
          if i ∈ notif_fired logData notifs then { n with active := false }
          else n) := by
  unfold check_user_notifications
  rw [List.getElem?_map, List.getElem?_enum]
  cases notifs[i]? <;> simp

theorem notif_fired_after (logData : Reading) (notifs : List Notif) :
    notif_fired logData (check_user_notifications logData notifs).1 = [] := by
  unfold notif_fired
  rw [List.filterMap_eq_nil_iff]
  rintro ⟨i, n'⟩ hmem
  have hget : (check_user_notifications logData notifs).1[i]? = some n' :=
    List.mk_mem_enum_iff_getElem?.1 hmem
  rw [check_user_notifications_getElem] at hget
  cases hn : notifs[i]? with
  | none => rw [hn] at hget; simp at hget
  | some n =>
    rw [hn] at hget
    by_cases hf : i ∈ notif_fired logData notifs
    · rw [Option.map_some'] at hget
      rw [if_pos hf] at hget
      obtain rfl : { n with active := false } = n' := by simpa using hget
      simp
    · rw [Option.map_some'] at hget
      rw [if_neg hf] at hget
      obtain rfl : n = n' := by simpa using hget
      rw [if_neg]
      intro hc
      exact hf ((notif_fired_mem logData notifs i).2 ⟨n, hn, hc⟩)

/-- C7: a user rule at index `i` is notified exactly when it is active,
its column carries a numeric value in the current reading, and
`sign(comparator) * value > sign(comparator) * limit`; on firing the rule
is kept (the list length is unchanged) with `active` flipped to `false`,
untouched otherwise; and re-running the evaluator on its own output with
the same reading notifies nothing. -/
theorem c7_user_rule_one_shot (logData : Reading) (notifs : List Notif)
    (i : ℕ) (n : Notif) (hn : notifs[i]? = some n) :
    (i ∈ (check_user_notifications logData notifs).2 ↔
      (n.active = true ∧ ∃ v : ℚ, alookup n.column logData = some (Val.num v) ∧
        (n.comparison : ℚ) * n.limit < (n.comparison : ℚ) * v))
    ∧ (check_user_notifications logData notifs).1.length = notifs.length
    ∧ (check_user_notifications logData notifs).1[i]?
        = some (if i ∈ (check_user_notifications logData notifs).2
                then { n with active := false } else n)
    ∧ (check_user_notifications logData
        (check_user_notifications logData notifs).1).2 = [] := by
  refine ⟨?_, ?_, ?_, ?_⟩
  · show i ∈ notif_fired logData notifs ↔ _
    rw [notif_fired_mem]
    constructor
    · rintro ⟨n', hn', ha, ht⟩
      rw [hn] at hn'
      obtain rfl : n = n' := by simpa using hn'
      exact ⟨ha, (notif_triggers_iff logData n).1 ht⟩
    · rintro ⟨ha, hv⟩
      exact ⟨n, hn, ha, (notif_triggers_iff logData n).2 hv⟩
  · show (notifs.enum.map _).length = _
    rw [List.length_map, List.enum_length]
  · rw [check_user_notifications_getElem, hn]
    rfl
  · show notif_fired logData _ = []
    exact notif_fired_after logData notifs

/-- Witness for C7: rule `temp < 10` on a reading with `temp = 5`
(the example config's canonical column for `temp` is `TAFM[K]`). -/
theorem c7_user_rule_one_shot_witness :
    ((0 : ℕ) ∈ (check_user_notifications [("TAFM[K]", Val.num 5)]
        [{ column := "TAFM[K]", comparison := -1, limit := 10, active := true }]).2 ↔
      ((true : Bool) = true ∧ ∃ v : ℚ,
        alookup "TAFM[K]" [("TAFM[K]", Val.num 5)] = some (Val.num v) ∧
        ((-1 : ℤ) : ℚ) * 10 < ((-1 : ℤ) : ℚ) * v))
    ∧ (check_user_notifications [("TAFM[K]", Val.num 5)]
        [{ column := "TAFM[K]", comparison := -1, limit := 10, active := true }]).1.length = 1
    ∧ (check_user_notifications [("TAFM[K]", Val.num 5)]
        [{ column := "TAFM[K]", comparison := -1, limit := 10, active := true }]).1[0]?
        = some (if (0 : ℕ) ∈ (check_user_notifications [("TAFM[K]", Val.num 5)]
                  [{ column := "TAFM[K]", comparison := -1, limit := 10, active := true }]).2
                then { column := "TAFM[K]", comparison := -1, limit := 10, active := false }
                else { column := "TAFM[K]", comparison := -1, limit := 10, active := true })
    ∧ (check_user_notifications [("TAFM[K]", Val.num 5)]
        (check_user_notifications [("TAFM[K]", Val.num 5)]
          [{ column := "TAFM[K]", comparison := -1, limit := 10, active := true }]).1).2 = [] :=
  c7_user_rule_one_shot [("TAFM[K]", Val.num 5)]
    [{ column := "TAFM[K]", comparison := -1, limit := 10, active := true }] 0
    { column := "TAFM[K]", comparison := -1, limit := 10, active := true } rfl

/-! ## Notification-add parsing lemmas -/

theorem comparison_of_eq_one (s : String) :
    comparison_of s = 1 ↔ s ∈ [">", "g", "gt", "gr"] := by
  unfold comparison_of
  by_cases h1 : s ∈ [">", "g", "gt", "gr"]
  · simp [h1]
  · by_cases h2 : s ∈ ["<", "s", "lt", "l", "k", "kl"] <;> simp [h1, h2]

theorem comparison_of_eq_neg_one (s : String) :
    comparison_of s = -1 ↔ s ∈ ["<", "s", "lt", "l", "k", "kl"] := by
  unfold comparison_of
  by_cases h1 : s ∈ [">", "g", "gt", "gr"]
  · rw [if_pos h1]
    have h2 : s ∉ ["<", "s", "lt", "l", "k", "kl"] := by
      have h1' : s = ">" ∨ s = "g" ∨ s = "gt" ∨ s = "gr" := by simpa using h1
      rcases h1' with rfl | rfl | rfl | rfl <;> decide
    simp [h2]
  · by_cases h2 : s ∈ ["<", "s", "lt", "l", "k", "kl"] <;> simp [h1, h2]

/-- C8: the add path of the notification manager recognises the comparator
from the fixed alias sets (`>`,`g`,`gt`,`gr` meaning greater and
`<`,`s`,`lt`,`l`,`k`,`kl` meaning less); on any parse failure — wrong
token count, unrecognised column, comparator in neither set, or a limit
that does not parse as a float after stripping unit suffixes — the
specific corresponding error is returned and the notification list is
completely unchanged; on success exactly one active rule is appended. -/
theorem c8_notification_add_parse (labels : List (String × List String))
    (notifs : List Notif) (items : List String) :
    ((user_notifications_add labels notifs items).2 ≠ .ok →
      (user_notifications_add labels notifs items).1 = notifs)
    ∧ (items.length ≠ 3 →
        (user_notifications_add labels notifs items).2 = .errFormat)
    ∧ (∀ s, (comparison_of s = 1 ↔ s ∈ [">", "g", "gt", "gr"])
        ∧ (comparison_of s = -1 ↔ s ∈ ["<", "s", "lt", "l", "k", "kl"]))
    ∧ (∀ qcol qcmp qlim, items = [qcol, qcmp, qlim] →
        (get_column_name labels qcol = none →
          (user_notifications_add labels notifs items).2 = .errColumn)
        ∧ (get_column_name labels qcol ≠ none → comparison_of qcmp = 0 →
            (user_notifications_add labels notifs items).2 = .errComparator)
        ∧ (get_column_name labels qcol ≠ none → comparison_of qcmp ≠ 0 →
            py_float (strip_units qlim) = none →
            (user_notifications_add labels notifs items).2 = .errNumber)
        ∧ (∀ col lim, get_column_name labels qcol = some col →
            comparison_of qcmp ≠ 0 → py_float (strip_units qlim) = some lim →
            user_notifications_add labels notifs items
              = (notifs ++ [{ column := col, comparison := comparison_of qcmp,
                              limit := lim, active := true }], .ok))) := by
  refine ⟨?_, ?_, fun s => ⟨comparison_of_eq_one s, comparison_of_eq_neg_one s⟩, ?_⟩
  · intro hne
    match items with
    | [] => rfl
    | [_] => rfl
    | [_, _] => rfl
    | _ :: _ :: _ :: _ :: _ => rfl
    | [qcol, qcmp, qlim] =>
      unfold user_notifications_add at hne ⊢
      cases hcol : get_column_name labels qcol with
      | none => simp [hcol]
      | some col =>
        by_cases hcmp : comparison_of qcmp = 0
        · simp [hcol, hcmp]
        · cases hlim : py_float (strip_units qlim) with
          | none => simp [hcol, hcmp, hlim]
          | some lim => exact absurd (by simp [hcol, hcmp, hlim]) hne
  · intro hlen
    match items with
    | [] => rfl
    | [_] => rfl
    | [_, _] => rfl
    | _ :: _ :: _ :: _ :: _ => rfl
    | [_, _, _] => exact absurd rfl hlen
  · rintro qcol qcmp qlim rfl
    refine ⟨?_, ?_, ?_, ?_⟩
    · intro hcol
      unfold user_notifications_add
      simp [hcol]
    · intro hcol hcmp
      unfold user_notifications_add
      cases h : get_column_name labels qcol with
      | none => exact absurd h hcol
      | some col => simp [h, hcmp]
    · intro hcol hcmp hlim
      unfold user_notifications_add
      cases h : get_column_name labels qcol with
      | none => exact absurd h hcol
      | some col => simp [h, hcmp, hlim]
    · intro col lim hcol hcmp hlim
      unfold user_notifications_add
      simp [hcol, hcmp, hlim]

/-- Witness for C8: two parse failures leave the list unchanged with
their specific errors, and a successful `pafm < 1e-9mbar` appends one
active rule. -/
theorem c8_notification_add_parse_witness :
    user_notifications_add [("PAFM[mbar]", ["pafm", "afmpressure"])] []
        ["pafm", "<", "oops"] = ([], .errNumber)
    ∧ user_notifications_add [("PAFM[mbar]", ["pafm", "afmpressure"])] []
        ["nocol", "<", "5"] = ([], .errColumn)
    ∧ user_notifications_add [("PAFM[mbar]", ["pafm", "afmpressure"])] []
        ["pafm", "<", "1e-9mbar"]
      = ([{ column := "PAFM[mbar]", comparison := -1,
            limit := 1 / 1000000000, active := true }], .ok) := by
  refine ⟨?_, ?_, ?_⟩
  · have h := (c8_notification_add_parse [("PAFM[mbar]", ["pafm", "afmpressure"])] []
      ["pafm", "<", "oops"]).2.2.2 "pafm" "<" "oops" rfl
    have h2 := h.2.2.1 (by decide) (by decide) (by decide)
    have h1 := (c8_notification_add_parse [("PAFM[mbar]", ["pafm", "afmpressure"])] []
      ["pafm", "<", "oops"]).1 (by rw [h2]; decide)
    exact Prod.ext h1 h2
  · have h := (c8_notification_add_parse [("PAFM[mbar]", ["pafm", "afmpressure"])] []
      ["nocol", "<", "5"]).2.2.2 "nocol" "<" "5" rfl
    have h2 := h.1 (by decide)
    have h1 := (c8_notification_add_parse [("PAFM[mbar]", ["pafm", "afmpressure"])] []
      ["nocol", "<", "5"]).1 (by rw [h2]; decide)
    exact Prod.ext h1 h2
  · have h := (c8_notification_add_parse [("PAFM[mbar]", ["pafm", "afmpressure"])] []
      ["pafm", "<", "1e-9mbar"]).2.2.2 "pafm" "<" "1e-9mbar" rfl
    have hlim : py_float (strip_units "1e-9mbar") = some (1 / 1000000000) := by
      have hsym : py_float (strip_units "1e-9mbar")
          = some (1 * ((1 : ℕ) : ℚ) * (10 : ℚ) ^ (-((9 : ℕ) : ℤ))) := by rfl
      rw [hsym]; norm_num
    have h4 := h.2.2.2 "PAFM[mbar]" (1 / 1000000000) (by decide) (by decide) hlim
    simpa using h4

/-! ## Lower-than scan lemmas -/

theorem mem_if_isEmpty {β : Type} (x : β) (l : List β) :
    (x ∈ if l.isEmpty then ([] : List β) else l) ↔ x ∈ l := by
  cases l <;> simp

theorem fired_list_mem (rules : List (String × SentinelRule)) (c : String)
    (w : Val) (err : String) (v : Val) :
    ((err, v) ∈ rules.filterMap (fun p =>
        if p.2.column = c ∧ w.eqn p.2.value then some (p.1, w) else none)) ↔
      v = w ∧ ∃ sr, (err, sr) ∈ rules ∧ sr.column = c ∧ w.eqn sr.value = true := by
  rw [List.mem_filterMap]
  constructor
  · rintro ⟨⟨err', sr⟩, hmem, hf⟩
    by_cases hc : sr.column = c ∧ w.eqn sr.value = true
    · rw [if_pos hc] at hf
      obtain ⟨rfl, rfl⟩ : err' = err ∧ w = v := by
        constructor <;> [exact congrArg Prod.fst (Option.some.inj hf);
          exact congrArg Prod.snd (Option.some.inj hf)]
      exact ⟨rfl, sr, hmem, hc⟩
    · rw [if_neg hc] at hf
      cases hf
  · rintro ⟨rfl, sr, hmem, hcol, heq⟩
    exact ⟨(err, sr), hmem, by simp [hcol, heq]⟩

theorem lowerthan_scan_fired_mem (rules : List (String × SentinelRule))
    (logData : Reading) (ltCols : List (String × ℚ)) (err : String) (v : Val) :
    (err, v) ∈ (lowerthan_scan rules logData ltCols).1 ↔
      ∃ c, c ∈ ltCols.map Prod.fst ∧ alookup c logData = some v ∧
        v.le 0 = true ∧ ∃ sr, (err, sr) ∈ rules ∧ sr.column = c ∧
          v.eqn sr.value = true := by
  induction ltCols with
  | nil => simp [lowerthan_scan]
  | cons p rest ih =>
    obtain ⟨c₀, q₀⟩ := p
    rw [show (lowerthan_scan rules logData ((c₀, q₀) :: rest)).1
        = (match alookup c₀ logData with
           | some w =>
               if w.le 0 then
                 (if (rules.filterMap (fun p =>
                     if p.2.column = c₀ ∧ w.eqn p.2.value then some (p.1, w)
                     else none)).isEmpty then []
                  else rules.filterMap (fun p =>
                     if p.2.column = c₀ ∧ w.eqn p.2.value then some (p.1, w)
                     else none))
               else []
           | none => []) ++ (lowerthan_scan rules logData rest).1 from by
      simp only [lowerthan_scan]
      cases alookup c₀ logData with
      | none => rfl
      | some w =>
        by_cases hle : w.le 0 = true
        · simp only [hle, if_true]
          by_cases hemp : (rules.filterMap (fun p =>
              if p.2.column = c₀ ∧ w.eqn p.2.value then some (p.1, w)
              else none)).isEmpty <;> simp [hemp]
        · simp [hle]]
    rw [List.mem_append, ih]
    constructor
    · rintro (hhead | ⟨c, hc, hv, hle, hsr⟩)
      · cases hl : alookup c₀ logData with
        | none => rw [hl] at hhead; simp at hhead
        | some w =>
          rw [hl] at hhead
          dsimp only at hhead
          by_cases hle : w.le 0 = true
          · rw [if_pos hle, mem_if_isEmpty, fired_list_mem] at hhead
            obtain ⟨rfl, hsr⟩ := hhead
            exact ⟨c₀, by simp, hl, hle, hsr⟩
          · rw [if_neg hle] at hhead; simp at hhead
      · exact ⟨c, by simp [hc], hv, hle, hsr⟩
    · rintro ⟨c, hc, hv, hle, hsr⟩
      rcases (by simpa using hc : c = c₀ ∨ ∃ q', (c, q') ∈ rest) with rfl | ⟨q', hc'⟩
      · left
        rw [hv]
        dsimp only
        rw [if_pos hle, mem_if_isEmpty, fired_list_mem]
        exact ⟨rfl, hsr⟩
      · right
        refine ⟨c, ?_, hv, hle, hsr⟩
        simp only [List.mem_map]
        exact ⟨(c, q'), hc', rfl⟩

theorem lowerthan_scan_neg_mem (rules : List (String × SentinelRule))
    (logData : Reading) (ltCols : List (String × ℚ)) (c' : String) :
    c' ∈ (lowerthan_scan rules logData ltCols).2 ↔
      c' ∈ ltCols.map Prod.fst ∧ ∃ w, alookup c' logData = some w ∧
        w.le 0 = true ∧ ∀ err sr, (err, sr) ∈ rules → sr.column = c' →
          w.eqn sr.value = false := by
  induction ltCols with
  | nil => simp [lowerthan_scan]
  | cons p rest ih =>
    obtain ⟨c₀, q₀⟩ := p
    rw [show (lowerthan_scan rules logData ((c₀, q₀) :: rest)).2
        = (match alookup c₀ logData with
           | some w =>
               if w.le 0 then
                 (if (rules.filterMap (fun p =>
                     if p.2.column = c₀ ∧ w.eqn p.2.value then some (p.1, w)
                     else none)).isEmpty then [c₀] else [])
               else []
           | none => []) ++ (lowerthan_scan rules logData rest).2 from by
      simp only [lowerthan_scan]
      cases alookup c₀ logData with
      | none => rfl
      | some w =>
        by_cases hle : w.le 0 = true
        · simp only [hle, if_true]
          by_cases hemp : (rules.filterMap (fun p =>
              if p.2.column = c₀ ∧ w.eqn p.2.value then some (p.1, w)
              else none)).isEmpty <;> simp [hemp]
        · simp [hle]]
    rw [List.mem_append, ih]
    have hempiff : ∀ w : Val, ((rules.filterMap (fun p =>
        if p.2.column = c₀ ∧ w.eqn p.2.value then some (p.1, w)
        else none)).isEmpty = true) ↔
        (∀ err sr, (err, sr) ∈ rules → sr.column = c₀ → w.eqn sr.value = false) := by
      intro w
      rw [List.isEmpty_iff, List.filterMap_eq_nil_iff]
      constructor
      · intro h err sr hmem hcol
        have := h (err, sr) hmem
        by_cases heq : w.eqn sr.value = true
        · rw [if_pos ⟨hcol, heq⟩] at this; cases this
        · simpa using heq
      · intro h q hq
        rw [if_neg]
        rintro ⟨hcol, heq⟩
        rw [h q.1 q.2 hq hcol] at heq
        cases heq
    constructor
    · rintro (hhead | ⟨hc, hw⟩)
      · cases hl : alookup c₀ logData with
        | none => rw [hl] at hhead; simp at hhead
        | some w =>
          rw [hl] at hhead
          dsimp only at hhead
          by_cases hle : w.le 0 = true
          · rw [if_pos hle] at hhead
            by_cases hemp : (rules.filterMap (fun p =>
                if p.2.column = c₀ ∧ w.eqn p.2.value then some (p.1, w)
                else none)).isEmpty = true
            · rw [if_pos hemp] at hhead
              obtain rfl : c' = c₀ := by simpa using hhead
              exact ⟨by simp, w, hl, hle, (hempiff w).1 hemp⟩
            · rw [if_neg hemp] at hhead; simp at hhead
          · rw [if_neg hle] at hhead; simp at hhead
      · exact ⟨by simp [hc], hw⟩
    · rintro ⟨hc, w, hw, hle, hall⟩
      rcases (by simpa using hc : c' = c₀ ∨ ∃ q', (c', q') ∈ rest) with rfl | ⟨q', hc'⟩
      · left
        rw [hw]
        dsimp only
        rw [if_pos hle, if_pos ((hempiff w).2 hall)]
        simp
      · right
        refine ⟨?_, w, hw, hle, hall⟩
        simp only [List.mem_map]
        exact ⟨(c', q'), hc', rfl⟩

/-- C3: for a column with a configured lower-than floor whose current
reading is non-positive, every sentinel rule matching `(column, value)`
exactly fires and the column is excluded from the default aggregation;
the column feeds the single aggregated default error exactly when no
sentinel matches; the fired set and the aggregated column list are
characterised completely; and the default lower-than error is raised iff
the aggregated list is nonempty. -/
theorem c3_sentinel_precedence (rules : List (String × SentinelRule))
    (logData : Reading) (ltCols : List (String × ℚ)) (c : String) (x : ℚ)
    (hc : c ∈ ltCols.map Prod.fst)
    (hv : alookup c logData = some (Val.num x)) (hx : x ≤ 0) :
    (∀ err sr, (err, sr) ∈ rules → sr.column = c → sr.value = x →
        ((err, Val.num x) ∈ (lowerthan_scan rules logData ltCols).1
         ∧ c ∉ (lowerthan_scan rules logData ltCols).2))
    ∧ (c ∈ (lowerthan_scan rules logData ltCols).2 ↔
        ∀ err sr, (err, sr) ∈ rules → sr.column = c → sr.value ≠ x)
    ∧ (∀ err v, (err, v) ∈ (lowerthan_scan rules logData ltCols).1 ↔
        ∃ c', c' ∈ ltCols.map Prod.fst ∧ alookup c' logData = some v ∧
          v.le 0 = true ∧ ∃ sr, (err, sr) ∈ rules ∧ sr.column = c' ∧
            v.eqn sr.value = true)
    ∧ (∀ c', c' ∈ (lowerthan_scan rules logData ltCols).2 ↔
        (c' ∈ ltCols.map Prod.fst ∧ ∃ w, alookup c' logData = some w ∧
          w.le 0 = true ∧ ∀ err sr, (err, sr) ∈ rules → sr.column = c' →
            w.eqn sr.value = false))
    ∧ (lowerthan_default_fires rules logData ltCols = true ↔
        (lowerthan_scan rules logData ltCols).2 ≠ []) := by
  have hle : (Val.num x).le 0 = true := by simpa [Val.le] using hx
  refine ⟨?_, ?_, fun err v => lowerthan_scan_fired_mem rules logData ltCols err v,
    fun c' => lowerthan_scan_neg_mem rules logData ltCols c', ?_⟩
  · intro err sr hmem hcol hval
    constructor
    · rw [lowerthan_scan_fired_mem]
      exact ⟨c, hc, hv, hle, sr, hmem, hcol, by simp [Val.eqn, hval]⟩
    · rw [lowerthan_scan_neg_mem]
      rintro ⟨-, w, hw, -, hall⟩
      obtain rfl : Val.num x = w := by
        have := hv.symm.trans hw
        simpa using this
      have := hall err sr hmem hcol
      rw [show (Val.num x).eqn sr.value = true by simp [Val.eqn, hval]] at this
      cases this
  · rw [lowerthan_scan_neg_mem]
    constructor
    · rintro ⟨-, w, hw, -, hall⟩ err sr hmem hcol
      obtain rfl : Val.num x = w := by
        have := hv.symm.trans hw
        simpa using this
      intro hval
      have := hall err sr hmem hcol
      rw [show (Val.num x).eqn sr.value = true by simp [Val.eqn, hval.symm]] at this
      cases this
    · intro hall
      refine ⟨hc, Val.num x, hv, hle, ?_⟩
      intro err sr hmem hcol
      have := hall err sr hmem hcol
      simpa [Val.eqn] using fun h => this h.symm
  · unfold lowerthan_default_fires
    rw [Bool.not_eq_true', ← Bool.not_eq_true]
    constructor
    · intro h hnil
      rw [List.isEmpty_iff] at h
      exact absurd hnil h
    · intro h
      rw [List.isEmpty_iff]
      exact h

/-- Witness for C3: the example configuration's `"off"` sentinel (−3000)
on `PAFM[mbar]` fires only the specific sentinel rule, not the default. -/
theorem c3_sentinel_precedence_witness :
    (("ERROR_lowerthan_pressure_afm_off", Val.num (-3000))
        ∈ (lowerthan_scan [("ERROR_lowerthan_pressure_afm_off",
            { column := "PAFM[mbar]", value := -3000 })]
          [("PAFM[mbar]", Val.num (-3000))] [("PAFM[mbar]", -1000)]).1)
    ∧ "PAFM[mbar]" ∉ (lowerthan_scan [("ERROR_lowerthan_pressure_afm_off",
          { column := "PAFM[mbar]", value := -3000 })]
        [("PAFM[mbar]", Val.num (-3000))] [("PAFM[mbar]", -1000)]).2 :=
  (c3_sentinel_precedence
    [("ERROR_lowerthan_pressure_afm_off", { column := "PAFM[mbar]", value := -3000 })]
    [("PAFM[mbar]", Val.num (-3000))] [("PAFM[mbar]", -1000)] "PAFM[mbar]" (-3000)
    (by decide) (by decide) (by norm_num)).1
    "ERROR_lowerthan_pressure_afm_off" { column := "PAFM[mbar]", value := -3000 }
    (by decide) rfl rfl

/-! ## Off-scan and clearing lemmas -/

theorem alookup_ne_nil (k : κ) (v : α) (l : List (κ × α))
    (h : alookup k l = some v) : l ≠ [] := by
  rintro rfl
  simp at h

theorem status_error_off_preserves_none (users : List Int) (e : String) :
    ∀ (offs : List (String × Bool)) (checks : Checks),
      alookup e checks = none →
      alookup e (status_error_off users offs checks).2 = none := by
  intro offs
  induction offs with
  | nil => intro checks h; exact h
  | cons p rest ih =>
    intro checks h
    obtain ⟨e₀, flag⟩ := p
    show alookup e (status_error_off users rest (error_remove checks e₀)).2 = none
    apply ih
    by_cases he : e₀ = e
    · subst he; exact alookup_aerase_self e₀ checks
    · rw [show error_remove checks e₀ = aerase e₀ checks from rfl,
        alookup_aerase_ne e₀ e checks he]
      exact h

theorem status_error_off_erased (users : List Int) (e : String) :
    ∀ (offs : List (String × Bool)) (checks : Checks),
      e ∈ offs.map Prod.fst →
      alookup e (status_error_off users offs checks).2 = none := by
  intro offs
  induction offs with
  | nil => intro checks h; simp at h
  | cons p rest ih =>
    intro checks h
    obtain ⟨e₀, flag⟩ := p
    show alookup e (status_error_off users rest (error_remove checks e₀)).2 = none
    by_cases he : e₀ = e
    · subst he
      apply status_error_off_preserves_none
      exact alookup_aerase_self e₀ checks
    · apply ih
      rcases (by simpa using h : e = e₀ ∨ e ∈ rest.map Prod.fst) with rfl | h'
      · exact absurd rfl he
      · exact h'

theorem check_errors_off_mem (C : RuleCfg) (logData : Reading)
    (logLastChecked : Option ℚ) (now : ℚ) (iQuiet : ℕ) (e : String) (b : Bool)
    (hd : error_off_decision C logData logLastChecked now iQuiet e = .off b) :
    ∀ checks : Checks, e ∈ checks.map Prod.fst →
      (e, b) ∈ (check_errors_off C logData logLastChecked now iQuiet checks).1 := by
  intro checks
  induction checks with
  | nil => intro h; simp at h
  | cons p rest ih =>
    intro h
    obtain ⟨e₀, m₀⟩ := p
    rcases (by simpa using h : e = e₀ ∨ e ∈ rest.map Prod.fst) with rfl | h'
    · show (e, b) ∈ (match error_off_decision C logData logLastChecked now iQuiet e with
        | .keep => check_errors_off C logData logLastChecked now iQuiet rest
        | .off b' => ((e, b') :: (check_errors_off C logData logLastChecked now iQuiet rest).1,
            (check_errors_off C logData logLastChecked now iQuiet rest).2)
        | .unknown => ((check_errors_off C logData logLastChecked now iQuiet rest).1,
            e :: (check_errors_off C logData logLastChecked now iQuiet rest).2)).1
      rw [hd]
      simp
    · have hmem := ih h'
      show (e, b) ∈ (match error_off_decision C logData logLastChecked now iQuiet e₀ with
        | .keep => check_errors_off C logData logLastChecked now iQuiet rest
        | .off b' => ((e₀, b') :: (check_errors_off C logData logLastChecked now iQuiet rest).1,
            (check_errors_off C logData logLastChecked now iQuiet rest).2)
        | .unknown => ((check_errors_off C logData logLastChecked now iQuiet rest).1,
            e₀ :: (check_errors_off C logData logLastChecked now iQuiet rest).2)).1
      cases error_off_decision C logData logLastChecked now iQuiet e₀ with
      | keep => exact hmem
      | off b' => exact List.mem_cons_of_mem _ hmem
      | unknown => exact hmem

theorem error_off_decision_max_limit (C : RuleCfg) (logData : Reading)
    (logLastChecked : Option ℚ) (now : ℚ) (iQuiet : ℕ)
    (e : String) (r : LimitRule) (v : ℚ)
    (hlog : e ≠ "ERROR_log_read")
    (hmh : alookup e C.mustHave = none)
    (hr : alookup e C.limitsMax = some r)
    (hv : alookup r.column logData = some (Val.num v))
    (hlt : v < limAt r.limits iQuiet) :
    error_off_decision C logData logLastChecked now iQuiet e
      = .off (!((Val.num v).lt (limAt r.limits 0))) := by
  unfold error_off_decision
  rw [if_neg hlog, hmh]
  dsimp only
  rw [hr]
  dsimp only
  rw [if_pos (alookup_ne_nil r.column (Val.num v) logData hv), hv]
  dsimp only
  rw [if_pos (show (Val.num v).lt (limAt r.limits iQuiet) = true by
    simpa [Val.lt] using hlt)]

/-- C5: a `MaxLimit` rule that is ON and whose column now reads strictly
below the currently applicable (quiet-hours-selected) limit is decided
OFF, its `(error, onlyQuiet)` pair enters `errors_off`, and the
subsequent `status_error_off` deletes the whole alert record regardless
of the flag; the only-because-of-quiet-hours flag on the de-warning is
true exactly when the value is still at or above the stricter non-quiet
limit. -/
theorem c5_quiet_clear_qualifier (C : RuleCfg) (logData : Reading)
    (logLastChecked : Option ℚ) (now : ℚ) (iQuiet : ℕ) (checks : Checks)
    (users : List Int) (e : String) (r : LimitRule) (v : ℚ)
    (he : e ∈ checks.map Prod.fst)
    (hlog : e ≠ "ERROR_log_read")
    (hmh : alookup e C.mustHave = none)
    (hr : alookup e C.limitsMax = some r)
    (hv : alookup r.column logData = some (Val.num v))
    (hlt : v < limAt r.limits iQuiet) :
    error_off_decision C logData logLastChecked now iQuiet e
        = .off (!((Val.num v).lt (limAt r.limits 0)))
    ∧ ((!((Val.num v).lt (limAt r.limits 0))) = true ↔ limAt r.limits 0 ≤ v)
    ∧ (e, !((Val.num v).lt (limAt r.limits 0)))
        ∈ (check_errors_off C logData logLastChecked now iQuiet checks).1
    ∧ alookup e (status_error_off users
        (check_errors_off C logData logLastChecked now iQuiet checks).1 checks).2
      = none := by
  have hd := error_off_decision_max_limit C logData logLastChecked now iQuiet
    e r v hlog hmh hr hv hlt
  have hmem := check_errors_off_mem C logData logLastChecked now iQuiet e
    (!((Val.num v).lt (limAt r.limits 0))) hd checks he
  refine ⟨hd, ?_, hmem, ?_⟩
  · simp [Val.lt, not_lt]
  · apply status_error_off_erased
    simp only [List.mem_map]
    exact ⟨(e, !((Val.num v).lt (limAt r.limits 0))), hmem, rfl⟩

/-- Witness for C5: during quiet hours (`iQuiet = 1`), a value of 50 on a
rule with limits `[10, 80]` clears the rule; the de-warning flag is true
(the value is still at or above the stricter limit 10) and the record is
deleted. -/
theorem c5_quiet_clear_qualifier_witness :
    error_off_decision
        { mustHave := [], limitsMax := [("ERROR_pressure_afm",
            { column := "PAFM[mbar]", limits := (10, 80), minCount := 0 })],
          lowerThan := [], lowerThanValues := [],
          lowerThanDefault := "ERROR_lowerthan",
          unknownValues := "ERROR_unknown_values", warningNologMinutes := 10 }
        [("PAFM[mbar]", Val.num 50)] none 0 1 "ERROR_pressure_afm"
        = .off (!((Val.num 50).lt (limAt (10, 80) 0)))
    ∧ ((!((Val.num 50).lt (limAt (10, 80) 0))) = true ↔ limAt (10, 80) 0 ≤ 50)
    ∧ ("ERROR_pressure_afm", !((Val.num 50).lt (limAt (10, 80) 0)))
        ∈ (check_errors_off
            { mustHave := [], limitsMax := [("ERROR_pressure_afm",
                { column := "PAFM[mbar]", limits := (10, 80), minCount := 0 })],
              lowerThan := [], lowerThanValues := [],
              lowerThanDefault := "ERROR_lowerthan",
              unknownValues := "ERROR_unknown_values", warningNologMinutes := 10 }
            [("PAFM[mbar]", Val.num 50)] none 0 1
            [("ERROR_pressure_afm", [(7, ⟨0, 1, Val.num 99⟩)])]).1
    ∧ alookup "ERROR_pressure_afm" (status_error_off [7]
        (check_errors_off
            { mustHave := [], limitsMax := [("ERROR_pressure_afm",
                { column := "PAFM[mbar]", limits := (10, 80), minCount := 0 })],
              lowerThan := [], lowerThanValues := [],
              lowerThanDefault := "ERROR_lowerthan",
              unknownValues := "ERROR_unknown_values", warningNologMinutes := 10 }
            [("PAFM[mbar]", Val.num 50)] none 0 1
            [("ERROR_pressure_afm", [(7, ⟨0, 1, Val.num 99⟩)])]).1
        [("ERROR_pressure_afm", [(7, ⟨0, 1, Val.num 99⟩)])]).2 = none :=
  c5_quiet_clear_qualifier
    { mustHave := [], limitsMax := [("ERROR_pressure_afm",
        { column := "PAFM[mbar]", limits := (10, 80), minCount := 0 })],
      lowerThan := [], lowerThanValues := [],
      lowerThanDefault := "ERROR_lowerthan",
      unknownValues := "ERROR_unknown_values", warningNologMinutes := 10 }
    [("PAFM[mbar]", Val.num 50)] none 0 1
    [("ERROR_pressure_afm", [(7, ⟨0, 1, Val.num 99⟩)])] [7]
    "ERROR_pressure_afm" { column := "PAFM[mbar]", limits := (10, 80), minCount := 0 }
    50 (by decide) (by decide) rfl rfl (by decide) (by decide)

/-! ## De-warning message lemmas -/

theorem off_msgs_of_mem (users : List Int) (e : String) (flag : Bool)
    (m : UserMap) (x : String) (y : Int) (z : Bool) :
    ((x, y, z) ∈ users.filterMap (fun u =>
        match alookup u m with
        | some ent => if 0 < ent.timesSent then some (e, u, flag) else none
        | none => none)) ↔
      x = e ∧ z = flag ∧ y ∈ users ∧
        ∃ ent, alookup y m = some ent ∧ 0 < ent.timesSent := by
  rw [List.mem_filterMap]
  constructor
  · rintro ⟨u, hu, hf⟩
    cases hent : alookup u m with
    | none => rw [hent] at hf; cases hf
    | some ent =>
      rw [hent] at hf
      dsimp only at hf
      by_cases hts : 0 < ent.timesSent
      · rw [if_pos hts] at hf
        obtain ⟨rfl, rfl, rfl⟩ : x = e ∧ y = u ∧ z = flag := by
          refine ⟨congrArg (fun p => p.1) (Option.some.inj hf).symm, ?_, ?_⟩
          · exact (congrArg (fun p => p.2.1) (Option.some.inj hf)).symm
          · exact (congrArg (fun p => p.2.2) (Option.some.inj hf)).symm
        exact ⟨rfl, rfl, hu, ent, hent, hts⟩
      · rw [if_neg hts] at hf; cases hf
  · rintro ⟨rfl, rfl, hy, ent, hent, hts⟩
    refine ⟨y, hy, ?_⟩
    rw [hent]
    dsimp only
    rw [if_pos hts]

theorem status_error_off_msgs_fst (users : List Int) :
    ∀ (offs : List (String × Bool)) (checks : Checks) (x : String) (y : Int)
      (z : Bool), (x, y, z) ∈ (status_error_off users offs checks).1 →
      x ∈ offs.map Prod.fst := by
  intro offs
  induction offs with
  | nil => intro checks x y z h; simp [status_error_off] at h
  | cons p rest ih =>
    intro checks x y z h
    obtain ⟨e₀, flag₀⟩ := p
    rcases List.mem_append.1 h with h₀ | h₀
    · have hx := ((off_msgs_of_mem users e₀ flag₀ _ x y z).1 h₀).1
      simp [hx]
    · simp only [List.map_cons]
      exact List.mem_cons_of_mem _ (ih _ x y z h₀)

theorem status_error_off_msgs (users : List Int) (e : String) (flag : Bool)
    (u : Int) :
    ∀ (offs : List (String × Bool)) (checks : Checks) (m : UserMap),
      (offs.map Prod.fst).Nodup → (e, flag) ∈ offs →
      alookup e checks = some m →
      ((e, u, flag) ∈ (status_error_off users offs checks).1 ↔
        u ∈ users ∧ ∃ ent, alookup u m = some ent ∧ 0 < ent.timesSent) := by
  intro offs
  induction offs with
  | nil => intro checks m _ hoff; simp at hoff
  | cons p rest ih =>
    intro checks m hnd hoff hm
    obtain ⟨e₀, flag₀⟩ := p
    have hnd' : (rest.map Prod.fst).Nodup := (List.nodup_cons.1 hnd).2
    have he₀ : e₀ ∉ rest.map Prod.fst := (List.nodup_cons.1 hnd).1
    rcases List.mem_cons.1 hoff with heq | hoff'
    · obtain ⟨rfl, rfl⟩ : e = e₀ ∧ flag = flag₀ :=
        ⟨congrArg Prod.fst heq, congrArg Prod.snd heq⟩
      constructor
      · intro h
        rcases List.mem_append.1 h with h₀ | h₀
        · have := (off_msgs_of_mem users e flag _ e u flag).1 h₀
          rw [hm, Option.getD_some] at this
          exact ⟨this.2.2.1, this.2.2.2⟩
        · exact absurd (status_error_off_msgs_fst users rest _ e u flag h₀) he₀
      · rintro ⟨hy, ent, hent, hts⟩
        apply List.mem_append.2
        left
        rw [off_msgs_of_mem]
        rw [hm, Option.getD_some]
        exact ⟨rfl, rfl, hy, ent, hent, hts⟩
    · have hne : e₀ ≠ e := by
        rintro rfl
        exact he₀ (List.mem_map.2 ⟨(e₀, flag), hoff', rfl⟩)
      have hm' : alookup e (error_remove checks e₀) = some m := by
        rw [show error_remove checks e₀ = aerase e₀ checks from rfl,
          alookup_aerase_ne e₀ e checks hne]
        exact hm
      constructor
      · intro h
        rcases List.mem_append.1 h with h₀ | h₀
        · have := (off_msgs_of_mem users e₀ flag₀ _ e u flag).1 h₀
          exact absurd this.1 (Ne.symm hne)
        · exact (ih _ m hnd' hoff' hm').1 h₀
      · intro hcond
        apply List.mem_append.2
        right
        exact (ih _ m hnd' hoff' hm').2 hcond

/-! ## Delivery-pass lemmas -/

theorem deliver_step_snd_other (w now : ℚ) (u u' : Int) (e : String)
    (m : UserMap) (h : u ≠ u') :
    alookup u' (deliver_step w now u e m).2 = alookup u' m := by
  unfold deliver_step
  cases alookup u m with
  | none => rfl
  | some ent =>
    dsimp only
    by_cases hd : now ≤ ent.sendNext
    · rw [if_pos hd]
    · rw [if_neg hd]
      exact alookup_aset_ne u u' _ m h

theorem deliver_step_snd_self (w now : ℚ) (u : Int) (e : String)
    (m : UserMap) (ent : Entry) (hent : alookup u m = some ent) :
    alookup u (deliver_step w now u e m).2
      = some (if now ≤ ent.sendNext then ent else deliver_entry w now ent) := by
  unfold deliver_step
  rw [hent]
  dsimp only
  by_cases hd : now ≤ ent.sendNext
  · rw [if_pos hd, if_pos hd]
    exact hent
  · rw [if_neg hd, if_neg hd]
    exact alookup_aset_self u _ m

theorem deliver_user_lookup (w now : ℚ) (u : Int) (e : String) (m : UserMap) :
    ∀ checks : Checks, alookup e checks = some m →
      alookup e (deliver_user w now u checks).2
        = some ((deliver_step w now u e m).2) := by
  intro checks
  induction checks with
  | nil => intro h; simp at h
  | cons p rest ih =>
    intro h
    obtain ⟨e₀, m₀⟩ := p
    by_cases he : e₀ = e
    · subst he
      rw [alookup_cons, if_pos rfl] at h
      obtain rfl : m = m₀ := by simpa using h.symm
      show alookup e₀ ((e₀, (deliver_step w now u e₀ m).2) :: _) = _
      rw [alookup_cons, if_pos rfl]
    · rw [alookup_cons, if_neg he] at h
      show alookup e ((e₀, (deliver_step w now u e₀ m₀).2) :: _) = _
      rw [alookup_cons, if_neg he]
      exact ih h

theorem deliver_user_keys (w now : ℚ) (u : Int) :
    ∀ checks : Checks,
      (deliver_user w now u checks).2.map Prod.fst = checks.map Prod.fst := by
  intro checks
  induction checks with
  | nil => rfl
  | cons p rest ih =>
    obtain ⟨e₀, m₀⟩ := p
    show ((e₀, _) :: (deliver_user w now u rest).2).map Prod.fst = _
    simp [ih]

theorem deliver_user_msgs_snd (w now : ℚ) (u : Int) :
    ∀ (checks : Checks) (x : String) (y : Int),
      (x, y) ∈ (deliver_user w now u checks).1 → y = u := by
  intro checks
  induction checks with
  | nil => intro x y h; simp [deliver_user] at h
  | cons p rest ih =>
    intro x y h
    obtain ⟨e₀, m₀⟩ := p
    rcases List.mem_append.1 h with h₀ | h₀
    · unfold deliver_step at h₀
      cases hent : alookup u m₀ with
      | none => rw [hent] at h₀; simp at h₀
      | some ent =>
        rw [hent] at h₀
        dsimp only at h₀
        by_cases hd : now ≤ ent.sendNext
        · rw [if_pos hd] at h₀; simp at h₀
        · rw [if_neg hd] at h₀
          obtain ⟨-, rfl⟩ : x = e₀ ∧ y = u := by simpa using h₀
          rfl
    · exact ih x y h₀

theorem alookup_eq_none_iff (k : κ) (l : List (κ × α)) :
    alookup k l = none ↔ k ∉ l.map Prod.fst := by
  induction l with
  | nil => simp
  | cons p t ih =>
    obtain ⟨k', v'⟩ := p
    by_cases h : k' = k
    · subst h; simp
    · simp [h, ih, Ne.symm h]

theorem mem_keys_of_alookup (k : κ) (v : α) (l : List (κ × α))
    (h : alookup k l = some v) : k ∈ l.map Prod.fst := by
  by_contra hmem
  rw [(alookup_eq_none_iff k l).2 hmem] at h
  cases h

theorem deliver_user_msgs_mem (w now : ℚ) (u : Int) (e : String) :
    ∀ checks : Checks, (checks.map Prod.fst).Nodup →
      ((e, u) ∈ (deliver_user w now u checks).1 ↔
        ∃ m ent, alookup e checks = some m ∧ alookup u m = some ent ∧
          ¬(now ≤ ent.sendNext)) := by
  intro checks
  induction checks with
  | nil => intro _; simp [deliver_user]
  | cons p rest ih =>
    intro hnd
    obtain ⟨e₀, m₀⟩ := p
    have hnd' : (rest.map Prod.fst).Nodup := (List.nodup_cons.1 hnd).2
    have he₀ : e₀ ∉ rest.map Prod.fst := (List.nodup_cons.1 hnd).1
    show ((e, u) ∈ (deliver_step w now u e₀ m₀).1 ++ (deliver_user w now u rest).1) ↔ _
    rw [List.mem_append, ih hnd']
    constructor
    · rintro (h₀ | ⟨m, ent, hm, hent, hdue⟩)
      · unfold deliver_step at h₀
        cases hent : alookup u m₀ with
        | none => rw [hent] at h₀; simp at h₀
        | some ent =>
          rw [hent] at h₀
          dsimp only at h₀
          by_cases hd : now ≤ ent.sendNext
          · rw [if_pos hd] at h₀; simp at h₀
          · rw [if_neg hd] at h₀
            obtain ⟨rfl, -⟩ : e = e₀ ∧ u = u := by simpa using h₀
            exact ⟨m₀, ent, by rw [alookup_cons, if_pos rfl], hent, hd⟩
      · have hne : e₀ ≠ e := by
          rintro rfl
          exact he₀ (mem_keys_of_alookup e₀ m rest hm)
        exact ⟨m, ent, by rw [alookup_cons, if_neg hne]; exact hm, hent, hdue⟩
    · rintro ⟨m, ent, hm, hent, hdue⟩
      by_cases he : e₀ = e
      · subst he
        rw [alookup_cons, if_pos rfl] at hm
        obtain rfl : m = m₀ := by simpa using hm.symm
        left
        unfold deliver_step
        rw [hent]
        dsimp only
        rw [if_neg hdue]
        simp
      · right
        rw [alookup_cons, if_neg he] at hm
        exact ⟨m, ent, hm, hent, hdue⟩

theorem status_error_send_preserves (w now : ℚ) (u : Int) :
    ∀ (users : List Int) (checks : Checks) (e : String) (m : UserMap),
      u ∉ users → alookup e checks = some m →
      ∃ m', alookup e (status_error_send w now users checks).2 = some m'
        ∧ alookup u m' = alookup u m := by
  intro users
  induction users with
  | nil => intro checks e m _ hm; exact ⟨m, hm, rfl⟩
  | cons u₀ us ih =>
    intro checks e m hu hm
    have hne : u ≠ u₀ := fun h => hu (h ▸ List.mem_cons_self _ _)
    have h1 := deliver_user_lookup w now u₀ e m checks hm
    obtain ⟨m', h2, h3⟩ := ih (deliver_user w now u₀ checks).2 e _
      (fun h => hu (List.mem_cons_of_mem _ h)) h1
    refine ⟨m', h2, ?_⟩
    rw [h3]
    exact deliver_step_snd_other w now u₀ u e m (Ne.symm hne)

theorem status_error_send_cell (w now : ℚ) (u : Int) (e : String) :
    ∀ (users : List Int) (checks : Checks) (m : UserMap) (ent : Entry),
      users.Nodup → u ∈ users → alookup e checks = some m →
      alookup u m = some ent →
      ∃ m', alookup e (status_error_send w now users checks).2 = some m'
        ∧ alookup u m' = some (if now ≤ ent.sendNext then ent
                               else deliver_entry w now ent) := by
  intro users
  induction users with
  | nil => intro checks m ent _ hu; simp at hu
  | cons u₀ us ih =>
    intro checks m ent hnd hu hm hent
    have h1 := deliver_user_lookup w now u₀ e m checks hm
    by_cases heq : u = u₀
    · subst heq
      have hnotin : u ∉ us := (List.nodup_cons.1 hnd).1
      have h4 := deliver_step_snd_self w now u e m ent hent
      obtain ⟨m', h2, h3⟩ := status_error_send_preserves w now u us
        (deliver_user w now u checks).2 e _ hnotin h1
      exact ⟨m', h2, by rw [h3, h4]⟩
    · have hne : u₀ ≠ u := fun h => heq h.symm
      have hu' : u ∈ us := by
        rcases List.mem_cons.1 hu with h | h
        · exact absurd h heq
        · exact h
      have hent' : alookup u ((deliver_step w now u₀ e m).2) = some ent := by
        rw [deliver_step_snd_other w now u₀ u e m hne]
        exact hent
      exact ih (deliver_user w now u₀ checks).2 _ ent (List.nodup_cons.1 hnd).2
        hu' h1 hent'

theorem status_error_send_msgs_snd (w now : ℚ) :
    ∀ (users : List Int) (checks : Checks) (x : String) (y : Int),
      (x, y) ∈ (status_error_send w now users checks).1 → y ∈ users := by
  intro users
  induction users with
  | nil => intro checks x y h; simp [status_error_send] at h
  | cons u₀ us ih =>
    intro checks x y h
    rcases List.mem_append.1 h with h₀ | h₀
    · rw [deliver_user_msgs_snd w now u₀ checks x y h₀]
      exact List.mem_cons_self _ _
    · exact List.mem_cons_of_mem _ (ih _ x y h₀)

theorem status_error_send_msgs (w now : ℚ) (u : Int) (e : String) :
    ∀ (users : List Int) (checks : Checks) (m : UserMap) (ent : Entry),
      users.Nodup → (checks.map Prod.fst).Nodup → u ∈ users →
      alookup e checks = some m → alookup u m = some ent →
      ((e, u) ∈ (status_error_send w now users checks).1 ↔
        ¬(now ≤ ent.sendNext)) := by
  intro users
  induction users with
  | nil => intro checks m ent _ _ hu; simp at hu
  | cons u₀ us ih =>
    intro checks m ent hnd hkeys hu hm hent
    show ((e, u) ∈ (deliver_user w now u₀ checks).1
        ++ (status_error_send w now us (deliver_user w now u₀ checks).2).1) ↔ _
    rw [List.mem_append]
    by_cases heq : u = u₀
    · subst heq
      have hnotin : u ∉ us := (List.nodup_cons.1 hnd).1
      constructor
      · rintro (h | h)
        · obtain ⟨m', ent', hm', hent', hdue⟩ :=
            (deliver_user_msgs_mem w now u e checks hkeys).1 h
          obtain rfl : m = m' := by
            have := hm.symm.trans hm'
            simpa using this
          obtain rfl : ent = ent' := by
            have := hent.symm.trans hent'
            simpa using this
          exact hdue
        · exact absurd (status_error_send_msgs_snd w now us _ e u h) hnotin
      · intro hdue
        left
        exact (deliver_user_msgs_mem w now u e checks hkeys).2 ⟨m, ent, hm, hent, hdue⟩
    · have hne : u₀ ≠ u := fun h => heq h.symm
      have hu' : u ∈ us := by
        rcases List.mem_cons.1 hu with h | h
        · exact absurd h heq
        · exact h
      have hhead : (e, u) ∉ (deliver_user w now u₀ checks).1 := fun h =>
        heq (deliver_user_msgs_snd w now u₀ checks e u h)
      have h1 := deliver_user_lookup w now u₀ e m checks hm
      have hent' : alookup u ((deliver_step w now u₀ e m).2) = some ent := by
        rw [deliver_step_snd_other w now u₀ u e m hne]
        exact hent
      have hkeys' : ((deliver_user w now u₀ checks).2.map Prod.fst).Nodup := by
        rw [deliver_user_keys]
        exact hkeys
      have hiff := ih (deliver_user w now u₀ checks).2 _ ent
        (List.nodup_cons.1 hnd).2 hkeys' hu' h1 hent'
      constructor
      · rintro (h | h)
        · exact absurd h hhead
        · exact hiff.1 h
      · intro hdue
        right
        exact hiff.2 hdue

/-- C2: when a rule clears, a registered user tracked by the rule's
record receives the de-warning (with the flag recorded for that rule)
exactly when their `timesSent` is positive, and afterwards the record is
deleted for all users; in the delivery pass, a user's entry is changed
exactly by a delivery — `timesSent` increments (and `sendNext` advances)
iff the warning was actually delivered to that user, i.e. iff the rate
limiter was due (`now > sendNext`), and is untouched otherwise. -/
theorem c2_dewarn_iff_times_sent (users : List Int) (checks : Checks)
    (offs : List (String × Bool)) (warnEveryMin now : ℚ)
    (e : String) (flag : Bool) (u : Int) (m : UserMap) (ent : Entry)
    (hoffs : (offs.map Prod.fst).Nodup)
    (hkeys : (checks.map Prod.fst).Nodup)
    (husers : users.Nodup)
    (hoff : (e, flag) ∈ offs)
    (hm : alookup e checks = some m)
    (hu : u ∈ users)
    (hent : alookup u m = some ent) :
    ((e, u, flag) ∈ (status_error_off users offs checks).1 ↔ 0 < ent.timesSent)
    ∧ alookup e (status_error_off users offs checks).2 = none
    ∧ (∃ m', alookup e (status_error_send warnEveryMin now users checks).2 = some m'
        ∧ alookup u m' = some (if now ≤ ent.sendNext then ent
                               else deliver_entry warnEveryMin now ent))
    ∧ ((e, u) ∈ (status_error_send warnEveryMin now users checks).1 ↔
        ¬(now ≤ ent.sendNext)) := by
  refine ⟨?_, ?_, ?_, ?_⟩
  · rw [status_error_off_msgs users e flag u offs checks m hoffs hoff hm]
    constructor
    · rintro ⟨-, ent', hent', hts⟩
      obtain rfl : ent = ent' := by
        have := hent.symm.trans hent'
        simpa using this
      exact hts
    · intro hts
      exact ⟨hu, ent, hent, hts⟩
  · exact status_error_off_erased users e offs checks
      (List.mem_map.2 ⟨(e, flag), hoff, rfl⟩)
  · exact status_error_send_cell warnEveryMin now u e users checks m ent
      husers hu hm hent
  · exact status_error_send_msgs warnEveryMin now u e users checks m ent
      husers hkeys hu hm hent

/-- Witness for C2: error `"E"` clears for user 7 with `timesSent = 1`;
the de-warning is sent and the record deleted; in a delivery pass at
`now = 10` with `sendNext = 5` the warning is delivered and the entry
advanced. -/
theorem c2_dewarn_iff_times_sent_witness :
    (("E", (7 : Int), true) ∈ (status_error_off [7] [("E", true)]
        [("E", [(7, ⟨5, 1, Val.num 3⟩)])]).1 ↔ 0 < (1 : ℕ))
    ∧ alookup "E" (status_error_off [7] [("E", true)]
        [("E", [(7, ⟨5, 1, Val.num 3⟩)])]).2 = none
    ∧ (∃ m', alookup "E" (status_error_send 60 10 [7]
          [("E", [(7, ⟨5, 1, Val.num 3⟩)])]).2 = some m'
        ∧ alookup (7 : Int) m'
          = some (if (10 : ℚ) ≤ (⟨5, 1, Val.num 3⟩ : Entry).sendNext
                  then (⟨5, 1, Val.num 3⟩ : Entry)
                  else deliver_entry 60 10 ⟨5, 1, Val.num 3⟩))
    ∧ (("E", (7 : Int)) ∈ (status_error_send 60 10 [7]
        [("E", [(7, ⟨5, 1, Val.num 3⟩)])]).1 ↔
        ¬((10 : ℚ) ≤ (⟨5, 1, Val.num 3⟩ : Entry).sendNext)) :=
  c2_dewarn_iff_times_sent [7] [("E", [(7, ⟨5, 1, Val.num 3⟩)])] [("E", true)]
    60 10 "E" true 7 [(7, ⟨5, 1, Val.num 3⟩)] ⟨5, 1, Val.num 3⟩
    (by decide) (by decide) (by decide) (by decide) (by decide) (by decide)
    (by decide)

end LabBot
